import Mathlib

/-!
Verification of the acquire_agents pipeline: the deterministic scorer,
tier classification, follow-up gating, the versioned record store with
content-hash deduplication, the seller-response write path, and the
UI/queue read queries, shallowly embedded from the repository sources
(`schema.sql`, `ui_queries/*.ts`, the Next.js route handlers and pages,
and the database helper module).
-/

namespace AcquireAgents

/-! ## Deterministic scorer -/

/-- The seven component scores fed to the scorer, each on a 0–100 scale
(`scoring_records` columns in schema.sql). Rationals model the SQL
`NUMERIC(5,2)` values exactly. -/
structure ComponentScores where
  price_efficiency : ℚ
  revenue_quality : ℚ
  moat : ℚ
  ai_leverage : ℚ
  operations : ℚ
  risk : ℚ
  trust : ℚ
deriving DecidableEq, Repr

/-- All seven components lie in [0,100], as enforced by the CHECK
constraints on `scoring_records` in schema.sql. -/
def ComponentScores.inRange (c : ComponentScores) : Prop :=
  0 ≤ c.price_efficiency ∧ c.price_efficiency ≤ 100 ∧
  0 ≤ c.revenue_quality ∧ c.revenue_quality ≤ 100 ∧
  0 ≤ c.moat ∧ c.moat ≤ 100 ∧
  0 ≤ c.ai_leverage ∧ c.ai_leverage ≤ 100 ∧
  0 ≤ c.operations ∧ c.operations ≤ 100 ∧
  0 ≤ c.risk ∧ c.risk ≤ 100 ∧
  0 ≤ c.trust ∧ c.trust ≤ 100

instance (c : ComponentScores) : Decidable c.inRange := by
  unfold ComponentScores.inRange; infer_instance

/-- The fixed-weight linear combination from README.md ("Scoring
Calculation"): Total Score = (Price Efficiency × 0.20) + (Revenue
Quality × 0.15) + (Moat × 0.20) + (AI Leverage × 0.15) + (Operations ×
0.10) + (Risk × 0.10) + (Trust × 0.10). -/
def weightedSum (c : ComponentScores) : ℚ :=
  c.price_efficiency * (20 / 100) + c.revenue_quality * (15 / 100) +
    c.moat * (20 / 100) + c.ai_leverage * (15 / 100) +
    c.operations * (10 / 100) + c.risk * (10 / 100) + c.trust * (10 / 100)

/-- Clamp a rational to the interval [0,100]. -/
def clamp (x : ℚ) : ℚ := max 0 (min 100 x)

/-- Modelled from the spec: the scoring backend (the Scoring Node) is not
under src/; §4.2 of the spec specifies `total = Σ weight_i * component_i`,
clamped to [0,100], with the weight table of README.md. -/
def total_score (c : ComponentScores) : ℚ := clamp (weightedSum c)

/-- The score tiers stored in `scoring_records.tier`
(CHECK (tier IN ('A','B','C','D')) in schema.sql). -/
inductive Tier where
  | A
  | B
  | C
  | D
deriving DecidableEq, Repr

/-- Modelled from the spec: the tier mapping of the Scoring Node is not
under src/; README.md ("Tier Mapping") and spec §4.2 give half-open
thresholds A ≥ 85; 70 ≤ B < 85; 55 ≤ C < 70; D < 55. -/
def tierOf (total : ℚ) : Tier :=
  if 85 ≤ total then Tier.A
  else if 70 ≤ total then Tier.B
  else if 55 ≤ total then Tier.C
  else Tier.D

/-- C1: for component scores each in [0,100], the total score equals the
weighted sum with the fixed weights {0.20, 0.15, 0.20, 0.15, 0.10, 0.10,
0.10} (the clamp is the identity there), and the total always lies in
[0,100] as the `scoring_records` CHECK constraint requires. -/
theorem total_score_eq_weighted_sum_and_in_range (c : ComponentScores)
    (h : c.inRange) :
    total_score c = weightedSum c ∧ 0 ≤ total_score c ∧ total_score c ≤ 100 := by
  obtain ⟨h1, h2, h3, h4, h5, h6, h7, h8, h9, h10, h11, h12, h13, h14⟩ := h
  have hlo : 0 ≤ weightedSum c := by unfold weightedSum; linarith
  have hhi : weightedSum c ≤ 100 := by unfold weightedSum; linarith
  have heq : total_score c = weightedSum c := by
    unfold total_score clamp
    rw [min_eq_right hhi, max_eq_right hlo]
  exact ⟨heq, by rw [heq]; exact hlo, by rw [heq]; exact hhi⟩

/-- Witness for C1: the spec's end-to-end example, component scores
{90, 85, 80, 88, 82, 75, 95}, is in range and the theorem applies. -/
theorem total_score_eq_weighted_sum_and_in_range_witness :
    total_score ⟨90, 85, 80, 88, 82, 75, 95⟩ = weightedSum ⟨90, 85, 80, 88, 82, 75, 95⟩ ∧
      0 ≤ total_score ⟨90, 85, 80, 88, 82, 75, 95⟩ ∧
      total_score ⟨90, 85, 80, 88, 82, 75, 95⟩ ≤ 100 :=
  total_score_eq_weighted_sum_and_in_range ⟨90, 85, 80, 88, 82, 75, 95⟩
    (by constructor <;> norm_num [ComponentScores.inRange])

/-- C2: the tier is a pure function of the total score with half-open low
bounds — A iff total ≥ 85, B iff 70 ≤ total < 85, C iff 55 ≤ total < 70,
D iff total < 55 — so 85.00 maps to A, 84.99 to B, 70.00 to B, 69.99 to
C, 55.00 to C, 54.99 to D, and every tier is one of {A,B,C,D}. -/
theorem tier_thresholds :
    (∀ t : ℚ, tierOf t = Tier.A ↔ 85 ≤ t) ∧
    (∀ t : ℚ, tierOf t = Tier.B ↔ 70 ≤ t ∧ t < 85) ∧
    (∀ t : ℚ, tierOf t = Tier.C ↔ 55 ≤ t ∧ t < 70) ∧
    (∀ t : ℚ, tierOf t = Tier.D ↔ t < 55) ∧
    tierOf 85 = Tier.A ∧ tierOf (8499 / 100) = Tier.B ∧
    tierOf 70 = Tier.B ∧ tierOf (6999 / 100) = Tier.C ∧
    tierOf 55 = Tier.C ∧ tierOf (5499 / 100) = Tier.D ∧
    (∀ t : ℚ, tierOf t = Tier.A ∨ tierOf t = Tier.B ∨ tierOf t = Tier.C ∨
      tierOf t = Tier.D) := by
  have hA : ∀ t : ℚ, tierOf t = Tier.A ↔ 85 ≤ t := by
    intro t; unfold tierOf; split_ifs <;> simp_all
  have hB : ∀ t : ℚ, tierOf t = Tier.B ↔ 70 ≤ t ∧ t < 85 := by
    intro t; unfold tierOf; split_ifs <;> simp_all <;> intros <;> linarith
  have hC : ∀ t : ℚ, tierOf t = Tier.C ↔ 55 ≤ t ∧ t < 70 := by
    intro t; unfold tierOf; split_ifs <;> simp_all <;> intros <;> linarith
  have hD : ∀ t : ℚ, tierOf t = Tier.D ↔ t < 55 := by
    intro t; unfold tierOf; split_ifs <;> simp_all <;> intros <;> linarith
  refine ⟨hA, hB, hC, hD, ?_, ?_, ?_, ?_, ?_, ?_, ?_⟩
  · rw [hA]
  · rw [hB]; norm_num
  · rw [hB]; norm_num
  · rw [hC]; norm_num
  · rw [hC]; norm_num
  · rw [hD]; norm_num
  · intro t; unfold tierOf; split_ifs <;> simp

/-! ## Follow-up data model -/

/-- Question severities, `follow_up_questions.severity`
(CHECK (severity IN ('critical','high','medium','low')) in schema.sql). -/
inductive Severity where
  | critical
  | high
  | medium
  | low
deriving DecidableEq, Repr

/-- The severity rank used by the pending-queue query in
src/unnamed/part_000 (CASE severity WHEN 'critical' THEN 4 WHEN 'high'
THEN 3 WHEN 'medium' THEN 2 WHEN 'low' THEN 1 END). -/
def sevRank : Severity → Nat
  | Severity.critical => 4
  | Severity.high => 3
  | Severity.medium => 2
  | Severity.low => 1

/-- Response workflow states, `follow_up_questions.response_status`
(CHECK (response_status IN ('pending','responded','no_response',
'escalated')) in schema.sql). -/
inductive ResponseStatus where
  | pending
  | responded
  | no_response
  | escalated
deriving DecidableEq, Repr

/-- A row of the `follow_up_questions` table (schema.sql); timestamps are
modelled as naturals. -/
structure FollowUpQuestionRow where
  id : String
  business_id : String
  canonical_record_id : String
  question_text : String
  triggered_by_field : String
  severity : Severity
  seller_response : Option String
  response_timestamp : Option Nat
  response_status : ResponseStatus
  created_at : Nat
deriving DecidableEq, Repr

/-! ## Follow-up gate (C3) -/

/-- The per-business pipeline status used by the businesses list page
(`BusinessListing.pipeline_status` in the UI types of
src/unnamed/part_002). -/
structure PipelineStatus where
  scraped : Bool
  canonicalized : Bool
  scored : Bool
  follow_up_generated : Bool
  awaiting_response : Bool
deriving DecidableEq, Repr

/-- Embeds the operation-selection logic of `runAllOperations` in
src/ui/src/app/businesses/page.tsx: canonicalize when not canonicalized,
score when not scored, and follow-ups only when not yet generated, the
business is scored, and the latest tier is "A" or "B". -/
def runAllOperationsOps (ps : PipelineStatus) (latest_tier : Option Tier) :
    List String :=
  (if !ps.canonicalized then ["canonicalize"] else []) ++
    (if !ps.scored then ["score"] else []) ++
    (if !ps.follow_up_generated && ps.scored &&
        (latest_tier == some Tier.A || latest_tier == some Tier.B) then
      ["follow-ups"]
    else [])

/-- The fields of a scoring record read by the business-detail page gate
(`updatedBusiness.scoring_record` in
src/ui/src/app/businesses/[business_id]/page.tsx). -/
structure ScoringRecordView where
  tier : Tier
  total_score : ℚ
deriving DecidableEq, Repr

/-- Embeds the post-scoring check of `triggerScoringAndFollowUps` in
src/ui/src/app/businesses/[business_id]/page.tsx: follow-up generation is
triggered iff a scoring record exists and its tier is "A" or "B". -/
def triggerFollowUpsGate (scoring : Option ScoringRecordView) : Bool :=
  match scoring with
  | some s => s.tier == Tier.A || s.tier == Tier.B
  | none => false

/-- C3, counterexample: the gate fires on a stored record with tier B and
total score 50, so it does not re-evaluate the condition
total_score ≥ 70 — it consults only the stored tier. -/
theorem follow_up_gate_fires_below_70 :
    triggerFollowUpsGate (some ⟨Tier.B, 50⟩) = true ∧ ¬((50 : ℚ) ≥ 70) := by
  constructor
  · rfl
  · norm_num

/-- C3, amended: follow-up generation is triggered exactly when the
latest tier is A or B — the stored total score is never consulted — and
a business whose tier is C or D never has follow-ups triggered, on both
the list-page batch runner and the detail-page gate. -/
theorem follow_up_gate_tier_membership :
    (∀ (ps : PipelineStatus) (t : Option Tier),
      "follow-ups" ∈ runAllOperationsOps ps t ↔
        ps.follow_up_generated = false ∧ ps.scored = true ∧
          (t = some Tier.A ∨ t = some Tier.B)) ∧
    (∀ s : Option ScoringRecordView,
      triggerFollowUpsGate s = true ↔
        ∃ r, s = some r ∧ (r.tier = Tier.A ∨ r.tier = Tier.B)) ∧
    (∀ total : ℚ,
      triggerFollowUpsGate (some ⟨Tier.C, total⟩) = false ∧
        triggerFollowUpsGate (some ⟨Tier.D, total⟩) = false) := by
  refine ⟨?_, ?_, ?_⟩
  · intro ps t
    unfold runAllOperationsOps
    cases hps : ps.follow_up_generated <;> cases hsc : ps.scored <;>
      split_ifs <;> simp_all
  · intro s
    cases s with
    | none => simp [triggerFollowUpsGate]
    | some r =>
      cases r with
      | mk tier total =>
        cases tier <;> simp [triggerFollowUpsGate]
  · intro total
    exact ⟨rfl, rfl⟩

/-! ## Seller-response write path (C6, C10) -/

/-- Embeds `saveFollowUpResponse` from src/unnamed/part_002: the SQL
UPDATE sets seller_response, response_timestamp = NOW() and
response_status = 'responded' on every row whose id matches (the WHERE
clause filters on id only), and the function throws "Question not found"
when zero rows were updated. `now` stands for NOW(). -/
def saveFollowUpResponse (db : List FollowUpQuestionRow)
    (questionId response : String) (now : Nat) :
    Except String (List FollowUpQuestionRow) :=
  let updated := db.map fun q =>
    if q.id = questionId then
      { q with
        seller_response := some response
        response_timestamp := some now
        response_status := ResponseStatus.responded }
    else q
  if db.any fun q => q.id == questionId then Except.ok updated
  else Except.error "Question not found"

/-- A follow-up question that has already left `pending` into the
terminal state `escalated`. -/
def escalatedQuestion : FollowUpQuestionRow :=
  { id := "q1", business_id := "b1", canonical_record_id := "c1",
    question_text := "Who owns the IP?", triggered_by_field := "ip_risk",
    severity := Severity.critical, seller_response := none,
    response_timestamp := none,
    response_status := ResponseStatus.escalated, created_at := 0 }

/-- C6, counterexample: `saveFollowUpResponse` moves a question whose
status is `escalated` (not `pending`) to `responded`, so non-pending
states are not terminal and the transition to `responded` is not guarded
by the current status being `pending`. -/
theorem saveFollowUpResponse_overwrites_escalated :
    escalatedQuestion.response_status ≠ ResponseStatus.pending ∧
      saveFollowUpResponse [escalatedQuestion] "q1" "The seller does" 5 =
        Except.ok [{ escalatedQuestion with
          seller_response := some "The seller does"
          response_timestamp := some 5
          response_status := ResponseStatus.responded }] := by
  exact ⟨by decide, rfl⟩

/-- The update errors with "Question not found" exactly when no stored
question has the given id. -/
theorem saveFollowUpResponse_not_found (db : List FollowUpQuestionRow)
    (qid resp : String) (now : Nat) :
    saveFollowUpResponse db qid resp now = Except.error "Question not found" ↔
      ∀ q ∈ db, q.id ≠ qid := by
  unfold saveFollowUpResponse
  split
  · rename_i hany
    simp only [List.any_eq_true, beq_iff_eq] at hany
    obtain ⟨q, hq, hqid⟩ := hany
    simp only [reduceCtorEq, false_iff, not_forall]
    exact ⟨q, hq, by simp [hqid]⟩
  · rename_i hany
    simp only [List.any_eq_true, beq_iff_eq, not_exists, not_and] at hany
    simp only [true_iff]
    exact fun q hq => hany q hq

/-- C6, amended: `saveFollowUpResponse` sets response_status to
`responded` on every stored question whose id matches, regardless of its
current status (its WHERE clause filters on id only), leaves every other
question unchanged, and errors exactly when no stored question has the
given id. -/
theorem saveFollowUpResponse_updates_matching
    (db : List FollowUpQuestionRow) (qid resp : String) (now : Nat) :
    (saveFollowUpResponse db qid resp now = Except.error "Question not found" ↔
      ∀ q ∈ db, q.id ≠ qid) ∧
    (∀ db', saveFollowUpResponse db qid resp now = Except.ok db' →
      db'.length = db.length ∧
        ∀ (i : Nat) (h : i < db.length) (h' : i < db'.length),
          (if (db.get ⟨i, h⟩).id = qid then
            db'.get ⟨i, h'⟩ =
              { db.get ⟨i, h⟩ with
                seller_response := some resp
                response_timestamp := some now
                response_status := ResponseStatus.responded }
          else db'.get ⟨i, h'⟩ = db.get ⟨i, h⟩)) := by
  constructor
  · exact saveFollowUpResponse_not_found db qid resp now
  · intro db' hok
    unfold saveFollowUpResponse at hok
    split at hok
    · cases hok
      refine ⟨by simp, ?_⟩
      intro i h h'
      rw [List.get_map]
      split
      · rename_i hid; simp [hid]
      · rename_i hid; simp [hid]
    · cases hok

/-- The escalated question after the seller-response write. -/
def respondedQuestion : FollowUpQuestionRow :=
  { escalatedQuestion with
    seller_response := some "ans"
    response_timestamp := some 7
    response_status := ResponseStatus.responded }

/-- Witness for C6's amended theorem: on a one-question store holding an
escalated question, the update succeeds and rewrites that question to
`responded`. -/
theorem saveFollowUpResponse_updates_matching_witness :
    ([respondedQuestion].length = [escalatedQuestion].length) ∧
    (if ([escalatedQuestion].get ⟨0, Nat.zero_lt_one⟩).id = "q1" then
      [respondedQuestion].get ⟨0, Nat.zero_lt_one⟩ =
        { [escalatedQuestion].get ⟨0, Nat.zero_lt_one⟩ with
          seller_response := some "ans"
          response_timestamp := some 7
          response_status := ResponseStatus.responded }
    else
      [respondedQuestion].get ⟨0, Nat.zero_lt_one⟩ =
        [escalatedQuestion].get ⟨0, Nat.zero_lt_one⟩) := by
  have h := (saveFollowUpResponse_updates_matching [escalatedQuestion]
    "q1" "ans" 7).2 [respondedQuestion] (by rfl)
  exact ⟨h.1, h.2 0 Nat.zero_lt_one Nat.zero_lt_one⟩

/-- JavaScript truthiness of an optional string request field: absent,
null or the empty string are falsy (the route handler tests
`!question_id || !response`). -/
def jsTruthy : Option String → Bool
  | none => false
  | some s => !(s == "")

/-- Embeds the POST handler of
src/ui/src/app/api/follow-ups/respond/route.ts: returns 400 without
touching the store when question_id or response is missing/empty,
otherwise calls `saveFollowUpResponse`; a thrown error (such as
"Question not found") is caught and surfaced as 500 with the store as
the call left it (unchanged, since the UPDATE matched no rows). The
result pairs the HTTP status with the resulting store contents. -/
def respondPOST (db : List FollowUpQuestionRow)
    (question_id response : Option String) (now : Nat) :
    Nat × List FollowUpQuestionRow :=
  if !(jsTruthy question_id) || !(jsTruthy response) then (400, db)
  else
    match saveFollowUpResponse db (question_id.getD "") (response.getD "") now with
    | Except.ok db' => (200, db')
    | Except.error _ => (500, db)

/-- C10: a POST with a missing or empty question_id or response returns
HTTP 400 and leaves the follow-up store unmodified; a POST whose
question_id matches no stored question makes `saveFollowUpResponse`
throw "Question not found", surfaced as HTTP 500 with the stored state
unchanged. -/
theorem respond_route_error_handling (db : List FollowUpQuestionRow)
    (question_id response : Option String) (now : Nat) :
    ((jsTruthy question_id = false ∨ jsTruthy response = false) →
      respondPOST db question_id response now = (400, db)) ∧
    (∀ qid : String, question_id = some qid → qid ≠ "" →
      jsTruthy response = true →
      (∀ q ∈ db, q.id ≠ qid) →
      saveFollowUpResponse db qid (response.getD "") now =
          Except.error "Question not found" ∧
        respondPOST db question_id response now = (500, db)) := by
  constructor
  · intro hfalsy
    unfold respondPOST
    rcases hfalsy with h | h <;> simp [h]
  · intro qid hqid hne hresp hnone
    have herr : saveFollowUpResponse db qid (response.getD "") now =
        Except.error "Question not found" :=
      (saveFollowUpResponse_not_found db qid (response.getD "") now).2 hnone
    refine ⟨herr, ?_⟩
    unfold respondPOST
    have htq : jsTruthy question_id = true := by
      rw [hqid]; simp [jsTruthy, hne]
    rw [htq, hresp]
    simp only [Bool.not_true, Bool.or_self, Bool.false_eq_true, if_false]
    rw [hqid]
    simp only [Option.getD_some]
    rw [herr]

/-- Witness for C10: on a store holding one question "q1", a request with
an empty response body field yields HTTP 400 with the store unchanged,
and a request for the unknown id "zz" yields the thrown error and HTTP
500 with the store unchanged. -/
theorem respond_route_error_handling_witness :
    respondPOST [escalatedQuestion] (some "q1") (some "") 3 =
        (400, [escalatedQuestion]) ∧
      saveFollowUpResponse [escalatedQuestion] "zz" "ans" 3 =
          Except.error "Question not found" ∧
        respondPOST [escalatedQuestion] (some "zz") (some "ans") 3 =
          (500, [escalatedQuestion]) := by
  refine ⟨?_, ?_⟩
  · exact (respond_route_error_handling [escalatedQuestion] (some "q1")
      (some "") 3).1 (Or.inr rfl)
  · exact (respond_route_error_handling [escalatedQuestion] (some "zz")
      (some "ans") 3).2 "zz" rfl (by decide) rfl (by decide)

/-! ## Pending-queue read queries (C9) -/

/-- The comparator realising ORDER BY CASE severity ... END DESC,
created_at ASC of the getPendingFollowups query (src/unnamed/part_000). -/
def pendingOrder (a b : FollowUpQuestionRow) : Bool :=
  decide (sevRank b.severity < sevRank a.severity) ||
    (decide (sevRank a.severity = sevRank b.severity) &&
      decide (a.created_at ≤ b.created_at))

/-- Embeds the getPendingFollowups query (src/unnamed/part_000): SELECT
... FROM follow_up_questions WHERE response_status = 'pending' ORDER BY
CASE severity WHEN 'critical' THEN 4 WHEN 'high' THEN 3 WHEN 'medium'
THEN 2 WHEN 'low' THEN 1 END DESC, created_at ASC. The TypeScript
wrapper is a stub; the SQL text is what is embedded, with the result-set
ordering realised by a sort satisfying the ORDER BY. -/
def getPendingFollowups (db : List FollowUpQuestionRow) :
    List FollowUpQuestionRow :=
  (db.filter fun q => q.response_status == ResponseStatus.pending).mergeSort
    pendingOrder

/-- The severity rank used by the getCriticalFollowups query
(src/ui_queries/risk_panel.ts): CASE severity WHEN 'critical' THEN 1
WHEN 'high' THEN 2 END; other severities yield NULL, which Postgres
sorts last in ascending order. -/
def criticalCaseRank : Severity → Nat
  | Severity.critical => 1
  | Severity.high => 2
  | _ => 3

/-- The comparator realising ORDER BY CASE severity ... END ASC,
created_at DESC of the getCriticalFollowups query
(src/ui_queries/risk_panel.ts). -/
def criticalOrder (a b : FollowUpQuestionRow) : Bool :=
  decide (criticalCaseRank a.severity < criticalCaseRank b.severity) ||
    (decide (criticalCaseRank a.severity = criticalCaseRank b.severity) &&
      decide (b.created_at ≤ a.created_at))

/-- Embeds the getCriticalFollowups query (src/ui_queries/risk_panel.ts):
SELECT ... FROM follow_up_questions WHERE business_id = $1 AND
response_status = 'pending' AND severity IN ('critical', 'high') ORDER
BY CASE severity WHEN 'critical' THEN 1 WHEN 'high' THEN 2 END,
created_at DESC. -/
def getCriticalFollowups (db : List FollowUpQuestionRow)
    (business_id : String) : List FollowUpQuestionRow :=
  (db.filter fun q =>
    q.business_id == business_id &&
      q.response_status == ResponseStatus.pending &&
      (q.severity == Severity.critical || q.severity == Severity.high)).mergeSort
    criticalOrder

/-- C9: every question returned by getPendingFollowups has status
pending and the list is ordered with higher-severity questions first
(critical before high before medium before low); getCriticalFollowups
additionally restricts to the given business and to severities critical
and high, with criticals first. -/
theorem pending_queue_queries_sorted (db : List FollowUpQuestionRow)
    (business_id : String) :
    (∀ q ∈ getPendingFollowups db,
      q.response_status = ResponseStatus.pending) ∧
    (getPendingFollowups db).Pairwise
      (fun a b => sevRank b.severity ≤ sevRank a.severity) ∧
    (∀ q ∈ getCriticalFollowups db business_id,
      q.response_status = ResponseStatus.pending ∧
        q.business_id = business_id ∧
        (q.severity = Severity.critical ∨ q.severity = Severity.high)) ∧
    (getCriticalFollowups db business_id).Pairwise
      (fun a b => sevRank b.severity ≤ sevRank a.severity) := by
  refine ⟨?_, ?_, ?_, ?_⟩
  · intro q hq
    rw [getPendingFollowups, List.mem_mergeSort] at hq
    have := List.of_mem_filter hq
    simpa using this
  · have hs : (getPendingFollowups db).Pairwise
        (fun a b => pendingOrder a b = true) := by
      apply List.sorted_mergeSort
      · intro a b c hab hbc
        unfold pendingOrder at *
        simp only [Bool.or_eq_true, Bool.and_eq_true, decide_eq_true_eq] at *
        omega
      · intro a b
        unfold pendingOrder
        simp only [Bool.or_eq_true, Bool.and_eq_true, decide_eq_true_eq]
        omega
    refine hs.imp ?_
    intro a b hab
    unfold pendingOrder at hab
    simp only [Bool.or_eq_true, Bool.and_eq_true, decide_eq_true_eq] at hab
    omega
  · intro q hq
    rw [getCriticalFollowups, List.mem_mergeSort] at hq
    have := List.of_mem_filter hq
    simp only [Bool.and_eq_true, Bool.or_eq_true, beq_iff_eq] at this
    exact ⟨this.1.2, this.1.1, this.2⟩
  · have hs : (getCriticalFollowups db business_id).Pairwise
        (fun a b => criticalOrder a b = true) := by
      apply List.sorted_mergeSort
      · intro a b c hab hbc
        unfold criticalOrder at *
        simp only [Bool.or_eq_true, Bool.and_eq_true, decide_eq_true_eq] at *
        omega
      · intro a b
        unfold criticalOrder
        simp only [Bool.or_eq_true, Bool.and_eq_true, decide_eq_true_eq]
        omega
    refine hs.imp_of_mem ?_
    intro a b hma hmb hab
    rw [getCriticalFollowups, List.mem_mergeSort] at hma hmb
    have ha := List.of_mem_filter hma
    have hb := List.of_mem_filter hmb
    simp only [Bool.and_eq_true, Bool.or_eq_true, beq_iff_eq] at ha hb
    unfold criticalOrder at hab
    simp only [Bool.or_eq_true, Bool.and_eq_true, decide_eq_true_eq] at hab
    rcases ha.2 with ha2 | ha2 <;> rcases hb.2 with hb2 | hb2 <;>
      simp_all [criticalCaseRank, sevRank]

/-- A pending high-severity question used to exercise the queue queries. -/
def pendingHighQuestion : FollowUpQuestionRow :=
  { escalatedQuestion with
    id := "qh", severity := Severity.high,
    response_status := ResponseStatus.pending, created_at := 1 }

/-- A pending critical question used to exercise the queue queries. -/
def pendingCriticalQuestion : FollowUpQuestionRow :=
  { escalatedQuestion with
    id := "qc", severity := Severity.critical,
    response_status := ResponseStatus.pending, created_at := 2 }

/-- Witness for C9: on a two-question store (a pending high question and
a pending critical question for business "b1"), the pending high
question appears in both query results with status pending, and both
result lists are severity-sorted. -/
theorem pending_queue_queries_sorted_witness :
    pendingHighQuestion.response_status = ResponseStatus.pending ∧
    (getPendingFollowups [pendingHighQuestion, pendingCriticalQuestion]).Pairwise
      (fun a b => sevRank b.severity ≤ sevRank a.severity) ∧
    (pendingHighQuestion.response_status = ResponseStatus.pending ∧
      pendingHighQuestion.business_id = "b1" ∧
      (pendingHighQuestion.severity = Severity.critical ∨
        pendingHighQuestion.severity = Severity.high)) ∧
    (getCriticalFollowups [pendingHighQuestion, pendingCriticalQuestion]
        "b1").Pairwise
      (fun a b => sevRank b.severity ≤ sevRank a.severity) := by
  have h := pending_queue_queries_sorted
    [pendingHighQuestion, pendingCriticalQuestion] "b1"
  refine ⟨?_, h.2.1, ?_, h.2.2.2⟩
  · refine h.1 pendingHighQuestion ?_
    rw [getPendingFollowups, List.mem_mergeSort]
    decide
  · refine h.2.2.1 pendingHighQuestion ?_
    rw [getCriticalFollowups, List.mem_mergeSort]
    decide

/-! ## Versioned record store (C4, C5) -/

/-- The deep-research agent types, `sector_research_records.agent_type`
(CHECK constraint in schema.sql). -/
inductive AgentType where
  | market_structure
  | platform_risk
  | monetization
  | competition
  | buyer_exit
  | synthesis
deriving DecidableEq, Repr

/-- A record of the versioned store: canonical records are keyed by
business id, sector research records by (sector key, agent type)
(schema.sql). Only the versioning-relevant columns are modelled. -/
structure VRecord (K : Type) where
  key : K
  version : Nat
  content_hash : String
deriving DecidableEq, Repr

/-- The element of maximal `f`-value, keeping the earliest on ties — one
realisation of SQL ORDER BY f DESC LIMIT 1. -/
def maxBy {α : Type} (f : α → Nat) : List α → Option α
  | [] => none
  | x :: xs =>
    match maxBy f xs with
    | none => some x
    | some a => if f x < f a then some a else some x

theorem maxBy_eq_none_iff {α : Type} (f : α → Nat) (l : List α) :
    maxBy f l = none ↔ l = [] := by
  cases l with
  | nil => simp [maxBy]
  | cons x xs =>
    simp only [maxBy]
    split <;> simp_all <;> split <;> simp

theorem maxBy_mem {α : Type} (f : α → Nat) {l : List α} {a : α}
    (h : maxBy f l = some a) : a ∈ l := by
  induction l with
  | nil => simp [maxBy] at h
  | cons x xs ih =>
    simp only [maxBy] at h
    split at h
    · cases h; simp
    · rename_i b hb
      split at h <;> cases h
      · exact List.mem_cons_of_mem x (ih hb)
      · simp

theorem maxBy_le {α : Type} (f : α → Nat) {l : List α} {a : α}
    (h : maxBy f l = some a) : ∀ x ∈ l, f x ≤ f a := by
  induction l generalizing a with
  | nil => simp [maxBy] at h
  | cons y ys ih =>
    intro x hx
    simp only [maxBy] at h
    split at h
    · rename_i hnone
      cases h
      rw [maxBy_eq_none_iff] at hnone
      subst hnone
      simp at hx
      subst hx
      exact Nat.le_refl _
    · rename_i b hb
      split at h <;> cases h
      · rename_i hlt
        rcases List.mem_cons.1 hx with hx | hx
        · subst hx; omega
        · exact ih hb x hx
      · rename_i hnlt
        rcases List.mem_cons.1 hx with hx | hx
        · subst hx; exact Nat.le_refl _
        · have := ih hb x hx; omega

/-- Modelled from the spec: the Versioned Record Store's `byHash(key,
contentHash)` lookup (§4.1); the store implementation is not under src/,
only its schema (schema.sql) and read queries are. -/
def byHash {K : Type} [DecidableEq K] (store : List (VRecord K)) (k : K)
    (h : String) : Option (VRecord K) :=
  store.find? fun r => decide (r.key = k) && decide (r.content_hash = h)

/-- Modelled from the spec: the store's `latest(key)` lookup (§4.1) — the
stored record of greatest version for the key, backed in schema.sql by
the (key, version DESC) indexes. -/
def latest {K : Type} [DecidableEq K] (store : List (VRecord K)) (k : K) :
    Option (VRecord K) :=
  maxBy (fun r => r.version) (store.filter fun r => decide (r.key = k))

/-- Modelled from the spec: the store's `append(key, payload,
contentHash)` (§4.1): a hash match returns the existing record unchanged
(dedup no-op); otherwise the new record gets version
`latest(key).version + 1`, or 1 when the key is absent, and is
prepended. Per-key writes are serialized (single-writer-per-key), so a
group of concurrent writers is modelled as a sequence of appends. -/
def append {K : Type} [DecidableEq K] (store : List (VRecord K)) (k : K)
    (h : String) : VRecord K × List (VRecord K) :=
  match byHash store k h with
  | some r => (r, store)
  | none =>
    let v : Nat :=
      match latest store k with
      | some r => r.version + 1
      | none => 1
    (⟨k, v, h⟩, ⟨k, v, h⟩ :: store)

/-- The store contents after a serialized sequence of append
submissions, starting from an empty store. -/
def runAppends {K : Type} [DecidableEq K] (ops : List (K × String)) :
    List (VRecord K) :=
  ops.foldl (fun store op => (append store op.1 op.2).2) []

/-- The stored version numbers for a key, in storage order. -/
def versionsOf {K : Type} [DecidableEq K] (store : List (VRecord K))
    (k : K) : List Nat :=
  (store.filter fun r => decide (r.key = k)).map fun r => r.version

/-- The descending list n, n-1, ..., 1. -/
def countdown : Nat → List Nat
  | 0 => []
  | n + 1 => (n + 1) :: countdown n

theorem countdown_mem (n v : Nat) : v ∈ countdown n ↔ 1 ≤ v ∧ v ≤ n := by
  induction n with
  | zero => simp only [countdown, List.not_mem_nil, false_iff]; omega
  | succ m ih => simp [countdown, ih]; omega

theorem countdown_length (n : Nat) : (countdown n).length = n := by
  induction n with
  | zero => rfl
  | succ m ih => simp [countdown, ih]

theorem countdown_nodup (n : Nat) : (countdown n).Nodup := by
  induction n with
  | zero => simp [countdown]
  | succ m ih =>
    simp only [countdown, List.nodup_cons]
    exact ⟨by rw [countdown_mem]; omega, ih⟩

/-- On a store whose versions for `k` form the gapless descending list
countdown n, the next version computed from `latest` is n + 1. -/
theorem next_version_of_countdown {K : Type} [DecidableEq K]
    {store : List (VRecord K)} {k : K} {n : Nat}
    (hv : versionsOf store k = countdown n) :
    (match latest store k with
      | some r => r.version + 1
      | none => 1) = n + 1 := by
  unfold versionsOf at hv
  unfold latest
  cases n with
  | zero =>
    have hnil : store.filter (fun r => decide (r.key = k)) = [] := by
      have hmap := hv
      simp only [countdown] at hmap
      exact List.map_eq_nil.1 hmap
    rw [hnil]
    rfl
  | succ m =>
    rcases hfil : store.filter (fun r => decide (r.key = k)) with _ | ⟨x, xs⟩
    · rw [hfil] at hv; simp [countdown] at hv
    · rw [hfil] at hv
      rw [hfil]
      rcases hmax : maxBy (fun r : VRecord K => r.version) (x :: xs) with _ | a
      · rw [maxBy_eq_none_iff] at hmax; cases hmax
      · have ha_mem := maxBy_mem (fun r : VRecord K => r.version) hmax
        have ha_le := maxBy_le (fun r : VRecord K => r.version) hmax
        have hx : x.version = m + 1 := by
          have hh := congrArg (fun l => l.headD 0) hv
          simpa [countdown] using hh
        have ha_in : a.version ∈ (x :: xs).map fun r => r.version :=
          List.mem_map_of_mem _ ha_mem
        rw [hv, countdown_mem] at ha_in
        have hxa : x.version ≤ a.version := ha_le x (by simp)
        show a.version + 1 = m + 1 + 1
        omega

/-- For every key, the stored versions form the gapless descending list
countdown n for some n. -/
def GaplessStore {K : Type} [DecidableEq K] (store : List (VRecord K)) :
    Prop :=
  ∀ k, ∃ n, versionsOf store k = countdown n

theorem versionsOf_cons {K : Type} [DecidableEq K] (r : VRecord K)
    (store : List (VRecord K)) (k : K) :
    versionsOf (r :: store) k =
      if r.key = k then r.version :: versionsOf store k
      else versionsOf store k := by
  unfold versionsOf
  split
  · rename_i hk; simp [List.filter_cons, hk]
  · rename_i hk; simp [List.filter_cons, hk]

theorem append_gapless {K : Type} [DecidableEq K]
    {store : List (VRecord K)} (hg : GaplessStore store) (k : K)
    (h : String) : GaplessStore (append store k h).2 := by
  unfold append
  rcases hbh : byHash store k h with _ | r
  · intro k'
    obtain ⟨n, hn⟩ := hg k'
    rcases hk : decide (k = k') with _ | _
    · refine ⟨n, ?_⟩
      rw [versionsOf_cons]
      simp only [decide_eq_false_iff_not] at hk
      rw [if_neg hk, hn]
    · simp only [decide_eq_true_eq] at hk
      subst hk
      refine ⟨n + 1, ?_⟩
      rw [versionsOf_cons, if_pos rfl, hn]
      have := next_version_of_countdown hn
      simp only [countdown]
      rw [← this]
  · exact hg

theorem runAppends_gapless {K : Type} [DecidableEq K]
    (ops : List (K × String)) : GaplessStore (runAppends ops) := by
  suffices hgen : ∀ (store : List (VRecord K)), GaplessStore store →
      GaplessStore (ops.foldl (fun s op => (append s op.1 op.2).2) store) by
    refine hgen [] ?_
    intro k
    exact ⟨0, rfl⟩
  induction ops with
  | nil => intro store hs; exact hs
  | cons op rest ih =>
    intro store hs
    exact ih _ (append_gapless hs op.1 op.2)

theorem byHash_eq_none_iff {K : Type} [DecidableEq K]
    (store : List (VRecord K)) (k : K) (h : String) :
    byHash store k h = none ↔
      ∀ r ∈ store, ¬(r.key = k ∧ r.content_hash = h) := by
  unfold byHash
  rw [List.find?_eq_none]
  constructor
  · intro hall r hr hcontra
    have := hall r hr
    simp [hcontra.1, hcontra.2] at this
  · intro hall r hr
    have := hall r hr
    simp only [Bool.and_eq_true, decide_eq_true_eq]
    tauto

theorem mem_runAppends {K : Type} [DecidableEq K]
    {ops : List (K × String)} {r : VRecord K}
    (hr : r ∈ runAppends ops) : (r.key, r.content_hash) ∈ ops := by
  induction ops using List.reverseRecOn with
  | nil => simp [runAppends] at hr
  | append_singleton rest op ih =>
    unfold runAppends at hr
    rw [List.foldl_append] at hr
    simp only [List.foldl_cons, List.foldl_nil] at hr
    unfold append at hr
    split at hr
    · exact List.mem_append_left _ (ih hr)
    · rcases List.mem_cons.1 hr with hre | hre
      · subst hre; simp
      · exact List.mem_append_left _ (ih hre)

theorem runAppends_append_one {K : Type} [DecidableEq K]
    (ops : List (K × String)) (op : K × String) :
    runAppends (ops ++ [op]) = (append (runAppends ops) op.1 op.2).2 := by
  unfold runAppends
  rw [List.foldl_append]
  rfl

theorem runAppends_count {K : Type} [DecidableEq K]
    {ops : List (K × String)} {k : K}
    (hk : ∀ op ∈ ops, op.1 = k) (hnd : (ops.map Prod.snd).Nodup) :
    (versionsOf (runAppends ops) k).length = ops.length := by
  induction ops using List.reverseRecOn with
  | nil => rfl
  | append_singleton rest op ih =>
    rw [runAppends_append_one]
    have hop : op.1 = k := hk op (List.mem_append_right _ (by simp))
    have hrest : ∀ p ∈ rest, p.1 = k :=
      fun p hp => hk p (List.mem_append_left _ hp)
    have hnd' : (rest.map Prod.snd).Nodup := by
      rw [List.map_append] at hnd
      exact (List.nodup_append.1 hnd).1
    have hfresh : op.2 ∉ rest.map Prod.snd := by
      rw [List.map_append] at hnd
      have hdisj := (List.nodup_append.1 hnd).2.2
      intro hmem
      exact hdisj hmem (by simp)
    have hbh : byHash (runAppends rest) op.1 op.2 = none := by
      rw [byHash_eq_none_iff]
      intro r hr hcontra
      apply hfresh
      have hm := mem_runAppends hr
      have h2 : r.content_hash ∈ rest.map Prod.snd :=
        List.mem_map_of_mem Prod.snd hm
      rwa [hcontra.2] at h2
    unfold append
    rw [hbh]
    simp only []
    rw [versionsOf_cons, if_pos hop, List.length_cons, ih hrest hnd']
    simp

/-- C4: starting from an empty store, any serialized sequence of appends
leaves, for every key, a duplicate-free version list that is exactly
{1, ..., length}; and N serialized writers for one key with distinct
content hashes produce exactly N versions, numbered 1..N with no gaps or
duplicates. -/
theorem version_sequence_gapless (ops : List (String × String))
    (k : String) :
    (∀ v, v ∈ versionsOf (runAppends ops) k ↔
      1 ≤ v ∧ v ≤ (versionsOf (runAppends ops) k).length) ∧
    (versionsOf (runAppends ops) k).Nodup ∧
    ((∀ op ∈ ops, op.1 = k) → (ops.map Prod.snd).Nodup →
      (versionsOf (runAppends ops) k).length = ops.length) := by
  obtain ⟨n, hn⟩ := runAppends_gapless ops k
  refine ⟨?_, ?_, ?_⟩
  · intro v
    rw [hn, countdown_mem, countdown_length]
  · rw [hn]; exact countdown_nodup n
  · intro hk hnd
    exact runAppends_count hk hnd

/-- Witness for C4: three writers for business "b1" with distinct
hashes produce exactly the versions {1, 2, 3}. -/
theorem version_sequence_gapless_witness :
    (2 ∈ versionsOf
        (runAppends [("b1", "h1"), ("b1", "h2"), ("b1", "h3")]) "b1" ↔
      1 ≤ 2 ∧ 2 ≤ (versionsOf
        (runAppends [("b1", "h1"), ("b1", "h2"), ("b1", "h3")]) "b1").length) ∧
    (versionsOf
      (runAppends [("b1", "h1"), ("b1", "h2"), ("b1", "h3")]) "b1").Nodup ∧
    (versionsOf
      (runAppends [("b1", "h1"), ("b1", "h2"), ("b1", "h3")]) "b1").length =
      3 := by
  have h := version_sequence_gapless
    [("b1", "h1"), ("b1", "h2"), ("b1", "h3")] "b1"
  exact ⟨h.1 2, h.2.1, h.2.2 (by decide) (by decide)⟩

/-- At most one stored record matches a given (key, content hash) pair. -/
theorem runAppends_dedup_count {K : Type} [DecidableEq K]
    (ops : List (K × String)) (k : K) (h : String) :
    ((runAppends ops).filter fun r =>
      decide (r.key = k) && decide (r.content_hash = h)).length ≤ 1 := by
  induction ops using List.reverseRecOn with
  | nil => simp [runAppends]
  | append_singleton rest op ih =>
    rw [runAppends_append_one]
    unfold append
    rcases hbh : byHash (runAppends rest) op.1 op.2 with _ | r
    · simp only []
      rw [List.filter_cons]
      split
      · rename_i hmatch
        simp only [Bool.and_eq_true, decide_eq_true_eq] at hmatch
        rw [byHash_eq_none_iff] at hbh
        have hempty : ((runAppends rest).filter fun r =>
            decide (r.key = k) && decide (r.content_hash = h)) = [] := by
          rw [List.filter_eq_nil]
          intro r hr
          simp only [Bool.and_eq_true, decide_eq_true_eq, not_and]
          intro hrk hrh
          exact hbh r hr ⟨by rw [hrk, ← hmatch.1], by rw [hrh, ← hmatch.2]⟩
        rw [hempty]
        simp
      · exact ih
    · exact ih

/-- C5: in the sector research store, at most one record exists per
(sector key, agent type, content hash) triple — the
ux_sector_research_dedup unique index of schema.sql — and a
hash-matching re-submission appends nothing and returns the existing
record. -/
theorem sector_research_dedup (ops : List ((String × AgentType) × String))
    (k : String × AgentType) (h : String) :
    ((runAppends ops).filter fun r =>
      decide (r.key = k) && decide (r.content_hash = h)).length ≤ 1 ∧
    (∀ r, byHash (runAppends ops) k h = some r →
      append (runAppends ops) k h = (r, runAppends ops)) := by
  refine ⟨runAppends_dedup_count ops k h, ?_⟩
  intro r hr
  unfold append
  rw [hr]

/-- Witness for C5: re-submitting the market-structure research for
sector "saas" with the same content hash returns the stored version-1
record and leaves the store unchanged. -/
theorem sector_research_dedup_witness :
    ((runAppends [((("saas", AgentType.market_structure)), "h1")]).filter
      fun r => decide (r.key = ("saas", AgentType.market_structure)) &&
        decide (r.content_hash = "h1")).length ≤ 1 ∧
    append (runAppends [((("saas", AgentType.market_structure)), "h1")])
        ("saas", AgentType.market_structure) "h1" =
      (⟨("saas", AgentType.market_structure), 1, "h1"⟩,
        runAppends [((("saas", AgentType.market_structure)), "h1")]) := by
  have h := sector_research_dedup
    [((("saas", AgentType.market_structure)), "h1")]
    ("saas", AgentType.market_structure) "h1"
  exact ⟨h.1, h.2 ⟨("saas", AgentType.market_structure), 1, "h1"⟩ (by rfl)⟩

/-! ## Follow-up question generator (C7) -/

/-- A triggered finding: the uncertain field it came from and its
mapped severity. -/
structure Finding where
  triggered_by_field : String
  severity : Severity
deriving DecidableEq, Repr

/-- Stable severity bucketing: criticals in discovery order, then highs,
mediums, lows. -/
def severityBuckets (findings : List Finding) : List Finding :=
  (findings.filter fun f => f.severity == Severity.critical) ++
    (findings.filter fun f => f.severity == Severity.high) ++
    (findings.filter fun f => f.severity == Severity.medium) ++
    (findings.filter fun f => f.severity == Severity.low)

/-- Modelled from the spec: the Follow-up Generator is not under src/;
§4.3 and README.md ("Follow-up Node", "Generates ≤8 targeted
questions") order candidate questions by severity (critical > high >
medium > low), stable by discovery order within a tier, and truncate to
at most 8, dropping lowest-severity surplus first. -/
def generateQuestions (findings : List Finding) : List Finding :=
  (severityBuckets findings).take 8

theorem filter_sev_bucket (s t : Severity) (l : List Finding) :
    (l.filter fun f => f.severity == t).filter (fun f => f.severity == s) =
      if s = t then l.filter (fun f => f.severity == s) else [] := by
  rw [List.filter_filter]
  split
  · rename_i hst
    subst hst
    simp
  · rename_i hst
    rw [List.filter_eq_nil]
    intro a _
    simp only [Bool.and_eq_true, beq_iff_eq, not_and]
    intro h1 h2
    exact hst (by rw [← h1, h2])

theorem severityBuckets_filter (s : Severity) (fs : List Finding) :
    (severityBuckets fs).filter (fun f => f.severity == s) =
      fs.filter (fun f => f.severity == s) := by
  unfold severityBuckets
  rw [List.filter_append, List.filter_append, List.filter_append,
    filter_sev_bucket s Severity.critical, filter_sev_bucket s Severity.high,
    filter_sev_bucket s Severity.medium, filter_sev_bucket s Severity.low]
  cases s <;> simp

theorem mem_filter_sev {s : Severity} {l : List Finding} {a : Finding}
    (h : a ∈ l.filter fun f => f.severity == s) : a.severity = s := by
  have := List.of_mem_filter h
  simpa using this

theorem severityBuckets_pairwise (fs : List Finding) :
    (severityBuckets fs).Pairwise
      (fun a b => sevRank b.severity ≤ sevRank a.severity) := by
  unfold severityBuckets
  simp only [List.append_assoc]
  rw [List.pairwise_append]
  refine ⟨?_, ?_, ?_⟩
  · refine List.pairwise_of_forall_mem_list ?_
    intro a ha b hb
    rw [mem_filter_sev ha, mem_filter_sev hb]
  · rw [List.pairwise_append]
    refine ⟨?_, ?_, ?_⟩
    · refine List.pairwise_of_forall_mem_list ?_
      intro a ha b hb
      rw [mem_filter_sev ha, mem_filter_sev hb]
    · rw [List.pairwise_append]
      refine ⟨?_, ?_, ?_⟩
      · refine List.pairwise_of_forall_mem_list ?_
        intro a ha b hb
        rw [mem_filter_sev ha, mem_filter_sev hb]
      · refine List.pairwise_of_forall_mem_list ?_
        intro a ha b hb
        rw [mem_filter_sev ha, mem_filter_sev hb]
      · intro a ha b hb
        rw [mem_filter_sev ha, mem_filter_sev hb]
        simp [sevRank]
    · intro a ha b hb
      rcases List.mem_append.1 hb with hb | hb <;>
        rw [mem_filter_sev ha, mem_filter_sev hb] <;> simp [sevRank]
  · intro a ha b hb
    rcases List.mem_append.1 hb with hb | hb
    · rw [mem_filter_sev ha, mem_filter_sev hb]; simp [sevRank]
    · rcases List.mem_append.1 hb with hb | hb <;>
        rw [mem_filter_sev ha, mem_filter_sev hb] <;> simp [sevRank]

/-- Twelve triggered findings: 3 critical, 4 high, 5 medium. -/
def twelveFindings : List Finding :=
  [⟨"c1", Severity.critical⟩, ⟨"c2", Severity.critical⟩,
    ⟨"c3", Severity.critical⟩, ⟨"h1", Severity.high⟩,
    ⟨"h2", Severity.high⟩, ⟨"h3", Severity.high⟩, ⟨"h4", Severity.high⟩,
    ⟨"m1", Severity.medium⟩, ⟨"m2", Severity.medium⟩,
    ⟨"m3", Severity.medium⟩, ⟨"m4", Severity.medium⟩,
    ⟨"m5", Severity.medium⟩]

/-- C7: the generated question list holds at most 8 questions, ordered
by severity (critical > high > medium > low) with stable discovery order
within each severity (the per-severity sublist of the output is a prefix
of the per-severity sublist of the input), truncating lowest-severity
items first; on 12 findings (3 critical, 4 high, 5 medium) it yields
exactly the 3 criticals, the 4 highs, and the first medium. -/
theorem generate_questions_cap_and_order :
    (∀ fs : List Finding, (generateQuestions fs).length ≤ 8) ∧
    (∀ fs : List Finding, (generateQuestions fs).Pairwise
      (fun a b => sevRank b.severity ≤ sevRank a.severity)) ∧
    (∀ (fs : List Finding) (s : Severity),
      (generateQuestions fs).filter (fun f => f.severity == s) <+:
        fs.filter (fun f => f.severity == s)) ∧
    generateQuestions twelveFindings =
      [⟨"c1", Severity.critical⟩, ⟨"c2", Severity.critical⟩,
        ⟨"c3", Severity.critical⟩, ⟨"h1", Severity.high⟩,
        ⟨"h2", Severity.high⟩, ⟨"h3", Severity.high⟩,
        ⟨"h4", Severity.high⟩, ⟨"m1", Severity.medium⟩] := by
  refine ⟨?_, ?_, ?_, ?_⟩
  · intro fs
    exact List.length_take_le 8 (severityBuckets fs)
  · intro fs
    exact (severityBuckets_pairwise fs).sublist (List.take_sublist 8 _)
  · intro fs s
    have hpre : generateQuestions fs <+: severityBuckets fs :=
      List.take_prefix 8 _
    have := hpre.filter (fun f => f.severity == s)
    rwa [severityBuckets_filter] at this
  · decide

/-! ## Latest-record reads (C8) -/

/-- A row of `canonical_business_records` (schema.sql); only the columns
the reads consult are modelled, timestamps as naturals. -/
structure CanonicalRow where
  id : String
  business_id : String
  version : Nat
  content_hash : String
  created_at : Nat
deriving DecidableEq, Repr

/-- Embeds getLatestCanonicalRecord (src/ui_queries/deal_overview.ts):
SELECT ... FROM canonical_business_records WHERE business_id = $1 ORDER
BY version DESC LIMIT 1. -/
def getLatestCanonicalRecord (db : List CanonicalRow)
    (business_id : String) : Option CanonicalRow :=
  maxBy (fun r => r.version)
    (db.filter fun r => r.business_id == business_id)

/-- Embeds the canonical-record read of getBusinessDetail
(src/unnamed/part_002): SELECT * FROM canonical_business_records WHERE
business_id = $1 ORDER BY created_at DESC LIMIT 1 — note the ordering is
by created_at, not by version. -/
def getBusinessDetailCanonical (db : List CanonicalRow)
    (business_id : String) : Option CanonicalRow :=
  maxBy (fun r => r.created_at)
    (db.filter fun r => r.business_id == business_id)

/-- A row of `sector_research_records` (schema.sql), versioning-relevant
columns only. -/
structure SectorResearchRow where
  sector_key : String
  agent_type : AgentType
  version : Nat
  created_at : Nat
deriving DecidableEq, Repr

/-- The six agent types, in the CHECK-constraint order of schema.sql. -/
def agentTypes : List AgentType :=
  [AgentType.market_structure, AgentType.platform_risk,
    AgentType.monetization, AgentType.competition, AgentType.buyer_exit,
    AgentType.synthesis]

/-- Embeds getLatestSectorResearch
(src/ui_queries/sector_intelligence.ts): SELECT DISTINCT ON (agent_type)
... WHERE sector_key = $1 ORDER BY agent_type, version DESC — one row
per agent type present in the sector, the row of maximal version. -/
def getLatestSectorResearch (db : List SectorResearchRow)
    (sector_key : String) : List SectorResearchRow :=
  agentTypes.filterMap fun a =>
    maxBy (fun r => r.version)
      (db.filter fun r => r.sector_key == sector_key && r.agent_type == a)

/-- A canonical record with the higher version but the earlier creation
timestamp. -/
def canonicalV2Early : CanonicalRow :=
  { id := "c1", business_id := "b1", version := 2, content_hash := "h1",
    created_at := 10 }

/-- A canonical record with the lower version but the later creation
timestamp. -/
def canonicalV1Late : CanonicalRow :=
  { id := "c2", business_id := "b1", version := 1, content_hash := "h2",
    created_at := 20 }

/-- C8, counterexample: on a store where version order and created_at
order disagree, getBusinessDetail's canonical-record read (ORDER BY
created_at DESC) returns the version-1 record even though version 2
exists, while getLatestCanonicalRecord (ORDER BY version DESC) returns
the version-2 record. -/
theorem business_detail_canonical_not_latest_version :
    getBusinessDetailCanonical [canonicalV2Early, canonicalV1Late] "b1" =
        some canonicalV1Late ∧
      getLatestCanonicalRecord [canonicalV2Early, canonicalV1Late] "b1" =
        some canonicalV2Early ∧
      canonicalV1Late.version < canonicalV2Early.version := by
  decide

/-- C8, amended: getLatestCanonicalRecord returns the highest-version
canonical record for the business id (or none when the business has no
record); getLatestSectorResearch returns for each agent type of the
sector exactly the highest-version research record; getBusinessDetail's
canonical-record read returns the record of greatest created_at for the
business id, which is the latest version only when creation order agrees
with version order. -/
theorem latest_reads_characterization (db : List CanonicalRow)
    (sdb : List SectorResearchRow) (business_id sector_key : String) :
    (∀ r, getLatestCanonicalRecord db business_id = some r →
      r ∈ db ∧ r.business_id = business_id ∧
        ∀ x ∈ db, x.business_id = business_id → x.version ≤ r.version) ∧
    (getLatestCanonicalRecord db business_id = none ↔
      ∀ x ∈ db, x.business_id ≠ business_id) ∧
    (∀ r : SectorResearchRow,
      r ∈ getLatestSectorResearch sdb sector_key ↔
        maxBy (fun x => x.version)
          (sdb.filter fun x => x.sector_key == sector_key &&
            x.agent_type == r.agent_type) = some r) ∧
    (∀ r, r ∈ getLatestSectorResearch sdb sector_key →
      r ∈ sdb ∧ r.sector_key = sector_key ∧
        ∀ x ∈ sdb, x.sector_key = sector_key →
          x.agent_type = r.agent_type → x.version ≤ r.version) ∧
    (∀ r, getBusinessDetailCanonical db business_id = some r →
      r ∈ db ∧ r.business_id = business_id ∧
        ∀ x ∈ db, x.business_id = business_id →
          x.created_at ≤ r.created_at) := by
  refine ⟨?_, ?_, ?_, ?_, ?_⟩
  · intro r hr
    unfold getLatestCanonicalRecord at hr
    have hmem := maxBy_mem _ hr
    have hle := maxBy_le _ hr
    have hbid : r.business_id = business_id := by
      have := List.of_mem_filter hmem
      simpa using this
    refine ⟨List.mem_of_mem_filter hmem, hbid, ?_⟩
    intro x hx hxb
    exact hle x (List.mem_filter.2 ⟨hx, by simp [hxb]⟩)
  · unfold getLatestCanonicalRecord
    rw [maxBy_eq_none_iff, List.filter_eq_nil]
    constructor
    · intro hall x hx hxb
      exact hall x hx (by simp [hxb])
    · intro hall x hx
      simp only [beq_iff_eq]
      exact hall x hx
  · intro r
    unfold getLatestSectorResearch
    rw [List.mem_filterMap]
    constructor
    · rintro ⟨a, _, hfa⟩
      have hmem := maxBy_mem _ hfa
      have hflt := List.of_mem_filter hmem
      simp only [Bool.and_eq_true, beq_iff_eq] at hflt
      rw [← hflt.2] at hfa
      exact hfa
    · intro hfa
      refine ⟨r.agent_type, ?_, hfa⟩
      cases hat : r.agent_type <;> simp [agentTypes]
  · intro r hr
    unfold getLatestSectorResearch at hr
    rw [List.mem_filterMap] at hr
    obtain ⟨a, _, hfa⟩ := hr
    have hmem := maxBy_mem _ hfa
    have hle := maxBy_le _ hfa
    have hflt := List.of_mem_filter hmem
    simp only [Bool.and_eq_true, beq_iff_eq] at hflt
    refine ⟨List.mem_of_mem_filter hmem, hflt.1, ?_⟩
    intro x hx hxk hxa
    exact hle x (List.mem_filter.2 ⟨hx, by simp [hxk, hxa, hflt.2]⟩)
  · intro r hr
    unfold getBusinessDetailCanonical at hr
    have hmem := maxBy_mem _ hr
    have hle := maxBy_le _ hr
    have hbid : r.business_id = business_id := by
      have := List.of_mem_filter hmem
      simpa using this
    refine ⟨List.mem_of_mem_filter hmem, hbid, ?_⟩
    intro x hx hxb
    exact hle x (List.mem_filter.2 ⟨hx, by simp [hxb]⟩)

/-- A monetization research row at version 1. -/
def sectorRowV1 : SectorResearchRow :=
  { sector_key := "saas", agent_type := AgentType.monetization,
    version := 1, created_at := 5 }

/-- A monetization research row at version 2. -/
def sectorRowV2 : SectorResearchRow :=
  { sector_key := "saas", agent_type := AgentType.monetization,
    version := 2, created_at := 3 }

/-- Witness for C8's amended theorem: on concrete stores, the
highest-version canonical record is returned for "b1", and the
version-2 monetization research row is returned for sector "saas". -/
theorem latest_reads_characterization_witness :
    canonicalV2Early ∈ [canonicalV2Early, canonicalV1Late] ∧
    canonicalV2Early.business_id = "b1" ∧
    canonicalV1Late.version ≤ canonicalV2Early.version ∧
    sectorRowV2 ∈ getLatestSectorResearch [sectorRowV1, sectorRowV2] "saas" ∧
    sectorRowV1.version ≤ sectorRowV2.version := by
  have h := latest_reads_characterization [canonicalV2Early, canonicalV1Late]
    [sectorRowV1, sectorRowV2] "b1" "saas"
  have h1 := h.1 canonicalV2Early (by decide)
  have hmem : sectorRowV2 ∈ getLatestSectorResearch
      [sectorRowV1, sectorRowV2] "saas" :=
    (h.2.2.1 sectorRowV2).2 (by decide)
  have h4 := h.2.2.2.1 sectorRowV2 hmem
  exact ⟨h1.1, h1.2.1, h1.2.2 canonicalV1Late (by decide) (by decide),
    hmem, h4.2.2 sectorRowV1 (by decide) (by decide) (by decide)⟩

end AcquireAgents
